import Mathlib

/-!
Verification of the news-monitor pipeline (`src/app.py`).

The development shallowly embeds the pipeline in Lean:

* Python `str.split(sep)` (non-empty separator) is embedded as `pySplit`:
  repeatedly cut the string at the leftmost occurrence of the separator,
  skipping the separator itself, scanning left to right without overlap.
* Python `str.strip()` is embedded as `pyStrip` (drops ASCII whitespace from
  both ends).
* One parsed HTML "news item" container (`soup.select('.news_area')`) is a
  record of the three optional nodes the code queries: `.news_tit`,
  `.info_group a`, `.info_group span.journalist`; a `none` field means
  `select_one` found no node, so `.text` raises.
* Network effects are oracles: `fetch` maps a keyword to `none` (request
  raised) or the parsed page; `model` maps a title to `none` (the OpenAI
  call raised) or the reply text of the first choice.
* `pandas.DataFrame.drop_duplicates(subset=['Synopsis'])` is embedded as a
  first-occurrence-wins, order-preserving dedup over the row list.
-/

namespace NewsMonitor

/-! ### Embedding of Python string primitives -/

/-- The list that remains right after the leftmost occurrence of the pattern
`s0 :: srest`, or `none` if the pattern does not occur. -/
def afterFirst (s0 : Char) (srest : List Char) : List Char → Option (List Char)
  | [] => none
  | c :: cs =>
    if c == s0 && srest.isPrefixOf cs then some (cs.drop srest.length)
    else afterFirst s0 srest cs

/-- The prefix strictly before the leftmost occurrence of the pattern
`s0 :: srest` (the whole list if the pattern does not occur). -/
def upToFirst (s0 : Char) (srest : List Char) : List Char → List Char
  | [] => []
  | c :: cs =>
    if c == s0 && srest.isPrefixOf cs then []
    else c :: upToFirst s0 srest cs

/-- Fuel-driven worker for `pySplitL`; the fuel is an upper bound on the
number of cuts, so any fuel at least the list length gives Python semantics. -/
def pySplitGo (s0 : Char) (srest : List Char) : Nat → List Char → List (List Char)
  | 0, l => [l]
  | fuel + 1, l =>
    match afterFirst s0 srest l with
    | none => [l]
    | some suf => upToFirst s0 srest l :: pySplitGo s0 srest fuel suf

/-- Python `str.split` on character lists, for a non-empty separator
`s0 :: srest`: cut at every non-overlapping leftmost occurrence. -/
def pySplitL (s0 : Char) (srest : List Char) (l : List Char) : List (List Char) :=
  pySplitGo s0 srest l.length l

/-- Python `str.split(sep)` for non-empty `sep` (the program never calls it
with an empty separator, for which Python raises). -/
def pySplit (sep s : String) : List String :=
  match sep.data with
  | [] => [s]
  | s0 :: srest => (pySplitL s0 srest s.data).map String.mk

/-- ASCII whitespace stripped by Python `str.strip()`. -/
def isPyWS (c : Char) : Bool :=
  c == ' ' || c == '\t' || c == '\n' || c == '\r' || c == '\x0b' || c == '\x0c'

/-- Python `str.strip()`: drop whitespace from both ends. -/
def pyStrip (s : String) : String :=
  String.mk (((s.data.dropWhile isPyWS).reverse.dropWhile isPyWS).reverse)

/-- Text after the first occurrence of `marker` in `s`, cut again at the next
occurrence of `marker`; `none` when `marker` does not occur.  This is the
specification-level reading of Python `s.split(marker)[1]`. -/
def scanAfter (marker s : String) : Option String :=
  match marker.data with
  | [] => none
  | c :: cs => (afterFirst c cs s.data).map String.mk

/-- Prefix of `s` before the first occurrence of `marker` (all of `s` when the
marker does not occur). -/
def scanUpTo (marker s : String) : String :=
  match marker.data with
  | [] => s
  | c :: cs => String.mk (upToFirst c cs s.data)

/-- Prefix of `s` up to (excluding) the first line break. -/
def firstLine (s : String) : String :=
  String.mk (upToFirst '\n' [] s.data)

/-- Text after the first occurrence of `marker` in `s` extending to the end of
`s`, stripped — the reading of the synopsis rule asserted by the spec. -/
def textAfterFirstToEnd (marker s : String) : String :=
  match marker.data with
  | [] => pyStrip s
  | c :: cs => pyStrip (String.mk ((afterFirst c cs s.data).getD s.data))

/-! ### Dates and the search URL (Fetcher, `search_naver_news` lines 29–37) -/

/-- A calendar date as `datetime.date` delivers it to `strftime`. -/
structure PyDate where
  year : Nat
  month : Nat
  day : Nat
deriving DecidableEq, Repr

/-- Left-pad a digit list with `'0'` to width `w` (as `strftime` does). -/
def padZeros (w : Nat) (l : List Char) : List Char :=
  List.replicate (w - l.length) '0' ++ l

/-- Python `date.strftime('%Y.%m.%d')`: zero-padded year, month and day,
separated by dots. -/
def fmtDate (d : PyDate) : String :=
  String.mk (padZeros 4 (Nat.toDigits 10 d.year) ++
    '.' :: padZeros 2 (Nat.toDigits 10 d.month) ++
    '.' :: padZeros 2 (Nat.toDigits 10 d.day))

/-- The `base_url` f-string of `search_naver_news`: the keyword and the two
formatted dates are interpolated verbatim. -/
def base_url (keyword : String) (start_date end_date : PyDate) : String :=
  "https://search.naver.com/search.naver?where=news&query=" ++ keyword ++
    "&sort=1&ds=" ++ fmtDate start_date ++ "&de=" ++ fmtDate end_date

/-- The request headers dict passed to `requests.get`. -/
def headers : List (String × String) := [("User-Agent", "Mozilla/5.0")]

/-! ### Specification-level URL observation (for the Fetcher claim) -/

/-- The query component of a URL: the text after the first question mark. -/
def queryStringOf (url : String) : String :=
  match afterFirst '?' [] url.data with
  | none => ""
  | some q => String.mk q

/-- Parse one `key=value` chunk: the key is the text before the first equals
sign, the value everything after it. -/
def paramOf (p : List Char) : String × String :=
  (String.mk (upToFirst '=' [] p),
   match afterFirst '=' [] p with
   | none => ""
   | some v => String.mk v)

/-- The query parameters of a URL, in order: split the query component on
ampersands and parse each chunk as `key=value`. -/
def queryParamsOf (url : String) : List (String × String) :=
  (pySplitL '&' [] (queryStringOf url).data).map paramOf

/-- Hexadecimal digit (uppercase), for percent-encoding. -/
def hexDigit (n : Nat) : Char :=
  ['0', '1', '2', '3', '4', '5', '6', '7', '8', '9',
   'A', 'B', 'C', 'D', 'E', 'F'].getD (n % 16) '0'

/-- UTF-8 bytes of a character, as numbers below 256. -/
def utf8Bytes (c : Char) : List Nat :=
  let n := c.toNat
  if n < 0x80 then [n]
  else if n < 0x800 then [0xC0 + n / 0x40, 0x80 + n % 0x40]
  else if n < 0x10000 then
    [0xE0 + n / 0x1000, 0x80 + n / 0x40 % 0x40, 0x80 + n % 0x40]
  else
    [0xF0 + n / 0x40000, 0x80 + n / 0x1000 % 0x40,
     0x80 + n / 0x40 % 0x40, 0x80 + n % 0x40]

/-- Characters that URL-encoding leaves untouched (RFC 3986 unreserved set). -/
def isUnreservedURI (c : Char) : Bool :=
  c.isAlphanum || c == '-' || c == '.' || c == '_' || c == '~'

/-- Percent-encode one byte. -/
def percentByte (b : Nat) : List Char :=
  ['%', hexDigit (b / 16), hexDigit (b % 16)]

/-- URL-encoding as the spec asserts it for the keyword: percent-encode every
character outside the unreserved set, byte by byte in UTF-8. -/
def urlEncode (s : String) : String :=
  String.mk ((s.data.map (fun c =>
    if isUnreservedURI c then [c] else (utf8Bytes c).map percentByte |>.flatten)).flatten)

/-! ### Extractor (`search_naver_news` lines 40–59) -/

/-- One `.news_area` container as the code queries it.  A `none` field means
the corresponding `select_one` finds no node (so `.text` raises). -/
structure Container where
  news_tit : Option String
  info_group_a : Option String
  journalist : Option String
deriving DecidableEq, Repr

/-- One scraped article, as appended to the `articles` list. -/
structure Article where
  title : String
  media : String
  journalist : String
  keyword : String
deriving DecidableEq, Repr

/-- The dict built for a container whose title and media nodes are present:
a missing journalist node is caught locally and becomes `"N/A"`. -/
def articleOf (keyword : String) (c : Container) : Article :=
  { title := c.news_tit.getD ""
    media := c.info_group_a.getD ""
    journalist := c.journalist.getD "N/A"
    keyword := keyword }

/-- The `for item in soup.select('.news_area')` loop.  Accessing `.text` of a
missing title or media node raises, which the surrounding `except` of
`search_naver_news` turns into `none` (all accumulated articles are lost). -/
def extractLoop (keyword : String) : List Container → Option (List Article)
  | [] => some []
  | c :: rest =>
    match c.news_tit, c.info_group_a with
    | some _, some _ => (extractLoop keyword rest).map (articleOf keyword c :: ·)
    | _, _ => none

/-- `search_naver_news`: `response` is `none` when the HTTP request itself
raises; any exception (transport or a malformed container) reaches the
function-level `except` which returns the empty list. -/
def search_naver_news (keyword : String) (response : Option (List Container)) :
    List Article :=
  match response with
  | none => []
  | some page => (extractLoop keyword page).getD []

/-! ### Classifier (`get_summary_and_category` lines 61–87) -/

/-- The fixed placeholder synopsis of the classifier's `except` branch. -/
def errSynopsis : String := "Error generating synopsis"

/-- `get_summary_and_category`: `reply` is `none` when the OpenAI call raises.
With a reply in hand the code runs
`result.split('Category:')[1].split('\n')[0].strip()` and
`result.split('Synopsis:')[1].strip()`; an `IndexError` (a missing marker)
reaches the same `except` branch as a transport failure. -/
def get_summary_and_category (reply : Option String) : String × String :=
  match reply with
  | none => ("N/A", errSynopsis)
  | some result =>
    match pySplit "Category:" result, pySplit "Synopsis:" result with
    | _ :: c1 :: _, _ :: s1 :: _ =>
        (pyStrip ((pySplit "\n" c1).headD ""), pyStrip s1)
    | _, _ => ("N/A", errSynopsis)

/-- Whether the classification of one reply takes the `except` branch:
a transport failure, or a reply missing either marker. -/
def classificationFails (reply : Option String) : Bool :=
  match reply with
  | none => true
  | some result =>
    match pySplit "Category:" result, pySplit "Synopsis:" result with
    | _ :: _ :: _, _ :: _ :: _ => false
    | _, _ => true

/-! ### Orchestrator (`main` lines 124–159) -/

/-- One row of `processed_articles` / the final DataFrame. -/
structure Row where
  Category : String
  Media : String
  Journalist : String
  Synopsis : String
deriving DecidableEq, Repr

/-- The keyword loop: per-keyword article lists are flattened by
`all_articles.extend(articles)` in keyword order. -/
def collectArticles (fetch : String → Option (List Container))
    (keywords : List String) : List Article :=
  (keywords.map (fun k => search_naver_news k (fetch k))).flatten

/-- The dict appended to `processed_articles` for one article. -/
def rowOfArticle (model : String → Option String) (a : Article) : Row :=
  { Category := (get_summary_and_category (model a.title)).1
    Media := a.media
    Journalist := a.journalist
    Synopsis := (get_summary_and_category (model a.title)).2 }

/-- The article loop: one classification call and one row per article, in
accumulation order. -/
def processArticles (model : String → Option String) (arts : List Article) :
    List Row :=
  arts.map (rowOfArticle model)

/-- `df.drop_duplicates(subset=['Synopsis'])`, streamed with the set of
synopses already seen: the first row bearing each synopsis is kept. -/
def dropDupGo (seen : List String) : List Row → List Row
  | [] => []
  | r :: rs =>
    if r.Synopsis ∈ seen then dropDupGo seen rs
    else r :: dropDupGo (r.Synopsis :: seen) rs

/-- Deduplication by synopsis: first occurrence wins, insertion order kept. -/
def dropDuplicatesBySynopsis (rows : List Row) : List Row :=
  dropDupGo [] rows

/-- The result table built by `main` after the two loops and the dedup. -/
def runTable (fetch : String → Option (List Container))
    (model : String → Option String) (keywords : List String) : List Row :=
  dropDuplicatesBySynopsis (processArticles model (collectArticles fetch keywords))

/-- A network round trip the run performs, in order. -/
inductive NetCall where
  | fetch (keyword : String)
  | classify (title : String)
deriving DecidableEq, Repr

/-- The guarded run body of `main`: with no keywords it warns and returns
before any network call (`if not keywords: ... return`); otherwise it fetches
once per keyword, classifies once per collected article, and yields the
deduplicated table.  The second component records every network call made. -/
def runMain (fetch : String → Option (List Container))
    (model : String → Option String) (keywords : List String) :
    Option (List Row) × List NetCall :=
  if keywords = [] then (none, [])
  else
    (some (runTable fetch model keywords),
     keywords.map NetCall.fetch ++
       (collectArticles fetch keywords).map (fun a => NetCall.classify a.title))

/-- The progress fractions `(i + 1) / total_articles` evaluated by the
classification loop, one per iteration. -/
def classifyProgress (total : Nat) : List ℚ :=
  (List.range total).map (fun i => ((i : ℚ) + 1) / (total : ℚ))

/-! ### Lemmas about the split scanners -/

theorem afterFirst_some_length (s0 : Char) (srest : List Char) :
    ∀ l suf, afterFirst s0 srest l = some suf → suf.length < l.length := by
  intro l
  induction l with
  | nil => intro suf h; simp [afterFirst] at h
  | cons c cs ih =>
    intro suf h
    rw [afterFirst] at h
    split at h
    · cases h
      simp only [List.length_drop, List.length_cons]
      omega
    · exact Nat.lt_trans (ih suf h) (by simp)

theorem pySplitGo_congr (s0 : Char) (srest : List Char) :
    ∀ f1 f2 l, l.length ≤ f1 → l.length ≤ f2 →
      pySplitGo s0 srest f1 l = pySplitGo s0 srest f2 l := by
  intro f1
  induction f1 with
  | zero =>
    intro f2 l h1 _
    have hl : l = [] := List.eq_nil_of_length_eq_zero (Nat.le_zero.mp h1)
    subst hl
    cases f2 <;> simp [pySplitGo, afterFirst]
  | succ f ih =>
    intro f2 l h1 h2
    cases f2 with
    | zero =>
      have hl : l = [] := List.eq_nil_of_length_eq_zero (Nat.le_zero.mp h2)
      subst hl
      simp [pySplitGo, afterFirst]
    | succ f2 =>
      rw [pySplitGo, pySplitGo]
      cases haf : afterFirst s0 srest l with
      | none => rfl
      | some suf =>
        have hlt := afterFirst_some_length s0 srest l suf haf
        dsimp only
        rw [ih f2 suf (by omega) (by omega)]

theorem pySplitL_eq (s0 : Char) (srest : List Char) (l : List Char) :
    pySplitL s0 srest l =
      match afterFirst s0 srest l with
      | none => [l]
      | some suf => upToFirst s0 srest l :: pySplitL s0 srest suf := by
  cases l with
  | nil => simp [pySplitL, pySplitGo, afterFirst]
  | cons c cs =>
    show pySplitGo s0 srest (cs.length + 1) (c :: cs) = _
    rw [pySplitGo]
    cases haf : afterFirst s0 srest (c :: cs) with
    | none => rfl
    | some suf =>
      have hlt := afterFirst_some_length s0 srest (c :: cs) suf haf
      dsimp only
      rw [show pySplitL s0 srest suf = pySplitGo s0 srest suf.length suf from rfl,
        pySplitGo_congr s0 srest cs.length suf.length suf (by simp at hlt; omega) le_rfl]

theorem upToFirst_eq_self_of_none (s0 : Char) (srest : List Char) :
    ∀ l, afterFirst s0 srest l = none → upToFirst s0 srest l = l := by
  intro l
  induction l with
  | nil => intro _; rfl
  | cons c cs ih =>
    intro h
    rw [afterFirst] at h
    rw [upToFirst]
    split at h
    · cases h
    · rw [if_neg (by assumption), ih h]

theorem pySplitL_cons (s0 : Char) (srest : List Char) (l : List Char) :
    ∃ t, pySplitL s0 srest l = upToFirst s0 srest l :: t := by
  rw [pySplitL_eq]
  cases haf : afterFirst s0 srest l with
  | none => exact ⟨[], by rw [upToFirst_eq_self_of_none s0 srest l haf]⟩
  | some suf => exact ⟨pySplitL s0 srest suf, rfl⟩

theorem afterFirst_isSome_iff (s0 : Char) (srest : List Char) :
    ∀ l, (afterFirst s0 srest l).isSome ↔ (s0 :: srest) <:+: l := by
  intro l
  induction l with
  | nil => simp [afterFirst]
  | cons c cs ih =>
    rw [afterFirst]
    by_cases h : (c == s0 && srest.isPrefixOf cs) = true
    · rw [if_pos h]
      simp only [Option.isSome_some, true_iff]
      simp only [Bool.and_eq_true, beq_iff_eq, List.isPrefixOf_iff_prefix] at h
      exact ((List.cons_prefix_cons.mpr ⟨h.1.symm, h.2⟩).isInfix)
    · rw [if_neg h]
      rw [ih, List.infix_cons_iff]
      constructor
      · exact Or.inr
      · intro hor
        rcases hor with hpre | hin
        · rcases List.cons_prefix_cons.mp hpre with ⟨he, hp⟩
          exact absurd (by simp [he.symm, List.isPrefixOf_iff_prefix, hp]) h
        · exact hin

theorem afterFirst_none_iff (s0 : Char) (srest : List Char) (l : List Char) :
    afterFirst s0 srest l = none ↔ ¬ (s0 :: srest) <:+: l := by
  rw [← afterFirst_isSome_iff]
  cases afterFirst s0 srest l <;> simp

/-! ### Single-character split lemmas (used for the URL query string) -/

theorem afterFirst_single_append (s0 : Char) (b : List Char) :
    ∀ a : List Char, s0 ∉ a → afterFirst s0 [] (a ++ s0 :: b) = some b := by
  intro a
  induction a with
  | nil => intro _; simp [afterFirst]
  | cons x xs ih =>
    intro h
    have h2 : ¬ s0 = x ∧ s0 ∉ xs := by simpa using h
    rw [List.cons_append, afterFirst,
      if_neg (by
        simp only [List.isPrefixOf_nil_left, Bool.and_true, beq_iff_eq]
        exact fun he => h2.1 he.symm)]
    exact ih h2.2

theorem upToFirst_single_append (s0 : Char) (b : List Char) :
    ∀ a : List Char, s0 ∉ a → upToFirst s0 [] (a ++ s0 :: b) = a := by
  intro a
  induction a with
  | nil => intro _; simp [upToFirst]
  | cons x xs ih =>
    intro h
    have h2 : ¬ s0 = x ∧ s0 ∉ xs := by simpa using h
    rw [List.cons_append, upToFirst,
      if_neg (by
        simp only [List.isPrefixOf_nil_left, Bool.and_true, beq_iff_eq]
        exact fun he => h2.1 he.symm)]
    rw [ih h2.2]

theorem afterFirst_single_none (s0 : Char) :
    ∀ l : List Char, s0 ∉ l → afterFirst s0 [] l = none := by
  intro l
  induction l with
  | nil => intro _; rfl
  | cons x xs ih =>
    intro h
    have h2 : ¬ s0 = x ∧ s0 ∉ xs := by simpa using h
    rw [afterFirst,
      if_neg (by
        simp only [List.isPrefixOf_nil_left, Bool.and_true, beq_iff_eq]
        exact fun he => h2.1 he.symm)]
    exact ih h2.2

theorem pySplitL_single_append (s0 : Char) (a b : List Char) (h : s0 ∉ a) :
    pySplitL s0 [] (a ++ s0 :: b) = a :: pySplitL s0 [] b := by
  rw [pySplitL_eq, afterFirst_single_append s0 b a h]
  rw [upToFirst_single_append s0 b a h]

theorem pySplitL_single_nil (s0 : Char) (l : List Char) (h : s0 ∉ l) :
    pySplitL s0 [] l = [l] := by
  rw [pySplitL_eq, afterFirst_single_none s0 l h]

/-! ### Lemmas about the extractor -/

/-- A container is well-formed when the two required nodes are present. -/
def wellFormed (c : Container) : Prop :=
  c.news_tit ≠ none ∧ c.info_group_a ≠ none

instance (c : Container) : Decidable (wellFormed c) := by
  unfold wellFormed; infer_instance

theorem extractLoop_eq_none (k : String) :
    ∀ page : List Container, ∀ c ∈ page, ¬ wellFormed c →
      extractLoop k page = none := by
  intro page
  induction page with
  | nil => intro c hc; cases hc
  | cons d rest ih =>
    intro c hc hbad
    rcases List.mem_cons.mp hc with he | hm
    · subst he
      rw [extractLoop]
      rcases hn : c.news_tit with _ | t
      · rfl
      · rcases hm : c.info_group_a with _ | m
        · rfl
        · exact absurd ⟨by rw [hn]; exact nofun, by rw [hm]; exact nofun⟩ hbad
    · rw [extractLoop]
      rcases hn : d.news_tit with _ | t
      · rfl
      · rcases hma : d.info_group_a with _ | m
        · rfl
        · rw [ih c hm hbad]; rfl

theorem extractLoop_eq_some (k : String) :
    ∀ page : List Container, (∀ c ∈ page, wellFormed c) →
      extractLoop k page = some (page.map (articleOf k)) := by
  intro page
  induction page with
  | nil => intro _; rfl
  | cons d rest ih =>
    intro h
    have hd := h d (List.mem_cons_self d rest)
    rw [extractLoop]
    rcases hn : d.news_tit with _ | t
    · exact absurd hn hd.1
    · rcases hma : d.info_group_a with _ | m
      · exact absurd hma hd.2
      · rw [ih (fun c hc => h c (List.mem_cons_of_mem d hc))]
        rfl

theorem search_eq_map (k : String) (page : List Container)
    (h : ∀ c ∈ page, wellFormed c) :
    search_naver_news k (some page) = page.map (articleOf k) := by
  show (extractLoop k page).getD [] = _
  rw [extractLoop_eq_some k page h]
  rfl

/-! ### Lemmas about the dedup -/

theorem dropDupGo_filter (s : String) :
    ∀ (rows : List Row) (seen : List String),
      (dropDupGo seen rows).filter (fun r => r.Synopsis == s) =
        if s ∈ seen then []
        else (rows.filter (fun r => r.Synopsis == s)).take 1 := by
  intro rows
  induction rows with
  | nil => intro seen; simp [dropDupGo]
  | cons r rs ih =>
    intro seen
    rw [dropDupGo]
    by_cases hr : r.Synopsis ∈ seen
    · rw [if_pos hr, ih seen]
      by_cases hs : s ∈ seen
      · simp [hs]
      · rw [if_neg hs, if_neg hs]
        have hne : (r.Synopsis == s) = false := by
          simp only [beq_eq_false_iff_ne, ne_eq]
          exact fun he => hs (he ▸ hr)
        simp [List.filter_cons, hne]
    · rw [if_neg hr]
      by_cases hrs : r.Synopsis = s
      · subst hrs
        rw [if_neg hr]
        have h1 : (dropDupGo (r.Synopsis :: seen) rs).filter
            (fun x => x.Synopsis == r.Synopsis) = [] := by
          rw [ih (r.Synopsis :: seen), if_pos (List.mem_cons_self _ _)]
        simp [List.filter_cons, h1]
      · have hne : (r.Synopsis == s) = false := by
          simp only [beq_eq_false_iff_ne, ne_eq]; exact hrs
        simp only [List.filter_cons, hne, Bool.false_eq_true, if_false]
        rw [ih (r.Synopsis :: seen)]
        by_cases hs : s ∈ seen
        · rw [if_pos (List.mem_cons_of_mem _ hs), if_pos hs]
        · rw [if_neg (by
            simp only [List.mem_cons]
            push_neg
            exact ⟨fun he => hrs he.symm, hs⟩), if_neg hs]

theorem dropDupGo_sublist : ∀ (rows : List Row) (seen : List String),
    (dropDupGo seen rows).Sublist rows := by
  intro rows
  induction rows with
  | nil => intro seen; simp [dropDupGo]
  | cons r rs ih =>
    intro seen
    rw [dropDupGo]
    by_cases hr : r.Synopsis ∈ seen
    · rw [if_pos hr]
      exact (ih seen).trans (List.sublist_cons_self r rs)
    · rw [if_neg hr]
      exact (ih (r.Synopsis :: seen)).cons₂ r

theorem dropDupGo_not_mem_seen : ∀ (rows : List Row) (seen : List String),
    ∀ r ∈ dropDupGo seen rows, r.Synopsis ∉ seen := by
  intro rows
  induction rows with
  | nil => intro seen r hr; cases hr
  | cons q rs ih =>
    intro seen r hr
    rw [dropDupGo] at hr
    by_cases hq : q.Synopsis ∈ seen
    · rw [if_pos hq] at hr
      exact ih seen r hr
    · rw [if_neg hq] at hr
      rcases List.mem_cons.mp hr with he | hm
      · subst he; exact hq
      · exact fun hs => ih (q.Synopsis :: seen) r hm (List.mem_cons_of_mem _ hs)

theorem dropDupGo_nodup : ∀ (rows : List Row) (seen : List String),
    ((dropDupGo seen rows).map Row.Synopsis).Nodup := by
  intro rows
  induction rows with
  | nil => intro seen; simp [dropDupGo]
  | cons q rs ih =>
    intro seen
    rw [dropDupGo]
    by_cases hq : q.Synopsis ∈ seen
    · rw [if_pos hq]; exact ih seen
    · rw [if_neg hq]
      simp only [List.map_cons, List.nodup_cons]
      refine ⟨fun hm => ?_, ih (q.Synopsis :: seen)⟩
      rcases List.mem_map.mp hm with ⟨r, hr, he⟩
      exact dropDupGo_not_mem_seen rs (q.Synopsis :: seen) r hr (by rw [he]; simp)

theorem dropDupGo_id : ∀ (rows : List Row) (seen : List String),
    ((rows.map Row.Synopsis).Nodup) → (∀ r ∈ rows, r.Synopsis ∉ seen) →
      dropDupGo seen rows = rows := by
  intro rows
  induction rows with
  | nil => intro seen _ _; rfl
  | cons q rs ih =>
    intro seen hnd hseen
    rw [dropDupGo, if_neg (hseen q (List.mem_cons_self q rs))]
    simp only [List.map_cons, List.nodup_cons] at hnd
    rw [ih (q.Synopsis :: seen) hnd.2]
    intro r hr
    simp only [List.mem_cons]
    push_neg
    refine ⟨fun he => hnd.1 ?_, hseen r (List.mem_cons_of_mem q hr)⟩
    exact he ▸ List.mem_map_of_mem Row.Synopsis hr

theorem dropDup_eq_nil_iff (rows : List Row) :
    dropDuplicatesBySynopsis rows = [] ↔ rows = [] := by
  cases rows with
  | nil => exact ⟨fun _ => rfl, fun _ => rfl⟩
  | cons r rs =>
    show dropDupGo [] (r :: rs) = [] ↔ r :: rs = []
    rw [dropDupGo, if_neg (List.not_mem_nil _)]
    simp

/-! ### Glue lemmas for the pipeline -/

theorem processArticles_filter (model : String → Option String)
    (arts : List Article) (s : String) :
    (processArticles model arts).filter (fun r => r.Synopsis == s) =
      (arts.filter (fun a => (rowOfArticle model a).Synopsis == s)).map
        (rowOfArticle model) := by
  induction arts with
  | nil => rfl
  | cons a rest ih =>
    simp only [processArticles, List.map_cons, List.filter_cons] at ih ⊢
    by_cases h : ((rowOfArticle model a).Synopsis == s) = true
    · simp only [h, if_true, List.map_cons]
      rw [ih]
    · simp only [Bool.not_eq_true] at h
      simp only [h, Bool.false_eq_true, if_false]
      rw [ih]

theorem find_eq_head_filter {α : Type} (p : α → Bool) :
    ∀ l : List α, l.find? p = (l.filter p).head? := by
  intro l
  induction l with
  | nil => rfl
  | cons a rest ih =>
    by_cases h : p a = true
    · rw [List.find?_cons_of_pos _ h, List.filter_cons_of_pos h]
      rfl
    · rw [List.find?_cons_of_neg _ (by simpa using h),
        List.filter_cons_of_neg (by simpa using h), ih]

/-! ### Claim C1 -/

/-- C1 counterexample: on a page whose second container is malformed (its
title node is absent) extraction yields zero records, although the same
well-formed first container alone yields one record — so a single malformed
container does abort the whole page, contrary to the claim. -/
theorem C1_counterexample :
    search_naver_news "k" (some
      [⟨some "T", some "M", none⟩, ⟨none, some "M2", none⟩]) = [] ∧
    search_naver_news "k" (some [⟨some "T", some "M", none⟩]) =
      [⟨"T", "M", "N/A", "k"⟩] := by
  exact ⟨rfl, rfl⟩

/-- C1 (amended): extraction failure is page-level, not container-level — if
any container on the page is missing its required title or media node, the
function-level exception handler discards the whole page and zero records
are produced; only a page whose containers are all well-formed yields one
record per container, in page order. -/
theorem C1_extraction_page_level (k : String) (page : List Container) :
    ((∃ c ∈ page, ¬ wellFormed c) → search_naver_news k (some page) = []) ∧
    ((∀ c ∈ page, wellFormed c) →
      search_naver_news k (some page) = page.map (articleOf k)) := by
  constructor
  · rintro ⟨c, hc, hbad⟩
    show (extractLoop k page).getD [] = []
    rw [extractLoop_eq_none k page c hc hbad]
    rfl
  · exact search_eq_map k page

/-- C1 witness: the amended theorem evaluated on a one-container page with
a malformed sibling absent (well-formed branch) at concrete input. -/
theorem C1_extraction_page_level_witness :
    search_naver_news "W1" (some [⟨some "Title", some "Media", some "Kim"⟩]) =
      [⟨"Title", "Media", "Kim", "W1"⟩] ∧
    search_naver_news "W1" (some
      [⟨some "Title", some "Media", some "Kim"⟩, ⟨some "T2", none, none⟩]) = [] := by
  constructor
  · rw [(C1_extraction_page_level "W1"
      [⟨some "Title", some "Media", some "Kim"⟩]).2 (by decide)]
    rfl
  · exact (C1_extraction_page_level "W1"
      [⟨some "Title", some "Media", some "Kim"⟩, ⟨some "T2", none, none⟩]).1
      ⟨⟨some "T2", none, none⟩, by decide, by decide⟩

/-! ### Claim C7 -/

/-- C7: on a page of well-formed containers, extraction yields one record per
container, and every container without a journalist byline node yields a
record whose journalist field is exactly the sentinel "N/A" — never the
empty string and never a missing field. -/
theorem C7_missing_journalist_sentinel (k : String) (page : List Container)
    (h : ∀ c ∈ page, wellFormed c) :
    search_naver_news k (some page) = page.map (articleOf k) ∧
    ∀ c ∈ page, c.journalist = none →
      (articleOf k c).journalist = "N/A" ∧ (articleOf k c).journalist ≠ "" := by
  refine ⟨search_eq_map k page h, fun c _ hj => ⟨?_, ?_⟩⟩
  · show c.journalist.getD "N/A" = "N/A"
    rw [hj]
    rfl
  · show c.journalist.getD "N/A" ≠ ""
    rw [hj]
    decide

/-- C7 witness: the sentinel journalist on a concrete byline-free page. -/
theorem C7_missing_journalist_witness :
    search_naver_news "W7" (some [⟨some "T7", some "M7", none⟩]) =
      [⟨"T7", "M7", "N/A", "W7"⟩] ∧
    (articleOf "W7" ⟨some "T7", some "M7", none⟩).journalist = "N/A" := by
  have h := C7_missing_journalist_sentinel "W7" [⟨some "T7", some "M7", none⟩]
    (by decide)
  exact ⟨by rw [h.1]; rfl, (h.2 _ (by simp) rfl).1⟩

/-! ### Claim C5 -/

/-- C5: deduplication retains, for every synopsis value, exactly the first
row in accumulation order bearing it — with its media and journalist fields
— discards every later row with an equal synopsis entirely, and the output
is a sublist of the input, so the relative order of retained rows is
preserved. -/
theorem C5_dedup_first_occurrence_wins (rows : List Row) :
    (dropDuplicatesBySynopsis rows).Sublist rows ∧
    ∀ s : String,
      (dropDuplicatesBySynopsis rows).filter (fun r => r.Synopsis == s) =
        (rows.filter (fun r => r.Synopsis == s)).take 1 := by
  refine ⟨dropDupGo_sublist rows [], fun s => ?_⟩
  show (dropDupGo [] rows).filter (fun r => r.Synopsis == s) = _
  rw [dropDupGo_filter s rows [], if_neg (List.not_mem_nil s)]

/-! ### Claim C6 -/

/-- C6: deduplication by synopsis is idempotent — applying it to its own
output returns that output unchanged — and the output is never longer than
the input. -/
theorem C6_dedup_idempotent (rows : List Row) :
    dropDuplicatesBySynopsis (dropDuplicatesBySynopsis rows) =
      dropDuplicatesBySynopsis rows ∧
    (dropDuplicatesBySynopsis rows).length ≤ rows.length := by
  constructor
  · exact dropDupGo_id (dropDupGo [] rows) [] (dropDupGo_nodup rows [])
      (fun r _ => List.not_mem_nil _)
  · exact (dropDupGo_sublist rows []).length_le

/-! ### Claim C8 -/

/-- C8: a run invoked with an empty keyword set stops at the guard: it
produces no table (the warning path of `main`) and performs zero network
calls — no fetch and no classification. -/
theorem C8_empty_keywords_no_op (fetch : String → Option (List Container))
    (model : String → Option String) :
    runMain fetch model [] = (none, []) := by
  rfl

/-! ### Claim C10 -/

/-- C10: when fetching and extraction accumulate zero articles, the
classification loop runs zero iterations — no progress fraction
(i + 1) / total is evaluated, so none is evaluated with a zero denominator —
no classification network call is made, and the run still completes with an
empty result table. -/
theorem C10_zero_articles_safe (fetch : String → Option (List Container))
    (model : String → Option String) (keywords : List String)
    (hne : keywords ≠ []) (hzero : collectArticles fetch keywords = []) :
    classifyProgress (collectArticles fetch keywords).length = [] ∧
    (runMain fetch model keywords).2 = keywords.map NetCall.fetch ∧
    (runMain fetch model keywords).1 = some [] := by
  have hrm : runMain fetch model keywords =
      (some (runTable fetch model keywords),
       keywords.map NetCall.fetch ++
         (collectArticles fetch keywords).map (fun a => NetCall.classify a.title)) := by
    simp only [runMain, if_neg hne]
  have htab : runTable fetch model keywords = [] := by
    show dropDuplicatesBySynopsis (processArticles model (collectArticles fetch keywords)) = []
    rw [hzero]
    rfl
  refine ⟨by rw [hzero]; rfl, ?_, ?_⟩
  · rw [hrm, hzero]
    simp
  · rw [hrm, htab]

/-- C10 witness: a concrete run whose only keyword returns an empty page. -/
theorem C10_zero_articles_witness :
    (runMain (fun _ => some []) (fun _ => none) ["CIP"]).1 = some [] ∧
    (runMain (fun _ => some []) (fun _ => none) ["CIP"]).2 =
      [NetCall.fetch "CIP"] := by
  have h := C10_zero_articles_safe (fun _ => some []) (fun _ => none) ["CIP"]
    (by decide) rfl
  exact ⟨h.2.2, h.2.1⟩

/-! ### Claim C4 -/

/-- C4: with a non-empty keyword set the run always completes with a table
(no fetch, extraction or classification failure escapes or aborts it); a
keyword whose fetch fails contributes zero records while every other
keyword is still processed; the table is empty exactly when every keyword
yields zero extracted articles; and classification yields exactly one row
per extracted article. -/
theorem C4_no_failure_aborts_run (fetch : String → Option (List Container))
    (model : String → Option String) (keywords : List String)
    (hne : keywords ≠ []) :
    (runMain fetch model keywords).1 = some (runTable fetch model keywords) ∧
    (∀ ks1 k ks2, keywords = ks1 ++ k :: ks2 → fetch k = none →
      runTable fetch model keywords = runTable fetch model (ks1 ++ ks2)) ∧
    (runTable fetch model keywords = [] ↔
      ∀ k ∈ keywords, search_naver_news k (fetch k) = []) ∧
    (processArticles model (collectArticles fetch keywords)).length =
      (collectArticles fetch keywords).length := by
  refine ⟨?_, ?_, ?_, ?_⟩
  · simp only [runMain, if_neg hne]
  · intro ks1 k ks2 heq hfk
    subst heq
    show dropDuplicatesBySynopsis (processArticles model _) =
      dropDuplicatesBySynopsis (processArticles model _)
    have hcoll : collectArticles fetch (ks1 ++ k :: ks2) =
        collectArticles fetch (ks1 ++ ks2) := by
      simp only [collectArticles, List.map_append, List.map_cons,
        List.flatten_append, List.flatten_cons]
      rw [hfk]
      show _ ++ (search_naver_news k none ++ _) = _
      rw [show search_naver_news k none = [] from rfl]
      rw [List.nil_append]
    rw [hcoll]
  · show dropDuplicatesBySynopsis (processArticles model (collectArticles fetch keywords)) = [] ↔ _
    rw [dropDup_eq_nil_iff]
    show processArticles model _ = [] ↔ _
    rw [processArticles, List.map_eq_nil_iff]
    show (List.map _ keywords).flatten = [] ↔ _
    rw [List.flatten_eq_nil_iff]
    constructor
    · intro h k hk
      exact h _ (List.mem_map_of_mem _ hk)
    · intro h l hl
      rcases List.mem_map.mp hl with ⟨k, hk, he⟩
      rw [← he]
      exact h k hk
  · exact List.length_map _ _

/-- C4 witness: fetching "X" fails, "Y" returns one article; the table has
exactly the one row of "Y" and equals the run without "X". -/
theorem C4_no_failure_aborts_run_witness :
    runTable (fun k => if k = "Y" then some [⟨some "T", some "M", some "J"⟩] else none)
        (fun _ => some "Category: CIP\nSynopsis: Good.") ["X", "Y"] =
      runTable (fun k => if k = "Y" then some [⟨some "T", some "M", some "J"⟩] else none)
        (fun _ => some "Category: CIP\nSynopsis: Good.") ["Y"] ∧
    runTable (fun k => if k = "Y" then some [⟨some "T", some "M", some "J"⟩] else none)
        (fun _ => some "Category: CIP\nSynopsis: Good.") ["X", "Y"] =
      [⟨"CIP", "M", "J", "Good."⟩] := by
  have h := C4_no_failure_aborts_run
    (fun k => if k = "Y" then some [⟨some "T", some "M", some "J"⟩] else none)
    (fun _ => some "Category: CIP\nSynopsis: Good.") ["X", "Y"] (by decide)
  exact ⟨h.2.1 [] "X" ["Y"] rfl (by decide), by decide⟩

/-! ### Claim C3 -/

theorem toDigitsCore_mem {P : Char → Prop}
    (hP : ∀ m, m < 10 → P (Nat.digitChar m)) :
    ∀ (fuel n : Nat) (ds : List Char), (∀ c ∈ ds, P c) →
      ∀ c ∈ Nat.toDigitsCore 10 fuel n ds, P c := by
  intro fuel
  induction fuel with
  | zero => intro n ds hds c hc; exact hds c hc
  | succ f ih =>
    intro n ds hds c hc
    rw [Nat.toDigitsCore] at hc
    replace hc : c ∈ (if n / 10 = 0 then Nat.digitChar (n % 10) :: ds
        else Nat.toDigitsCore 10 f (n / 10) (Nat.digitChar (n % 10) :: ds)) := hc
    by_cases h : n / 10 = 0
    · rw [if_pos h] at hc
      rcases List.mem_cons.mp hc with he | hm
      · subst he; exact hP _ (Nat.mod_lt n (by omega))
      · exact hds c hm
    · rw [if_neg h] at hc
      refine ih (n / 10) (Nat.digitChar (n % 10) :: ds) ?_ c hc
      intro x hx
      rcases List.mem_cons.mp hx with he | hm
      · subst he; exact hP _ (Nat.mod_lt n (by omega))
      · exact hds x hm

theorem data_mk (l : List Char) : (String.mk l).data = l := rfl

theorem toDigits_ne_amp (n : Nat) : ∀ c ∈ Nat.toDigits 10 n, c ≠ '&' := by
  have hP : ∀ m, m < 10 → Nat.digitChar m ≠ '&' := by decide
  intro c hc
  exact @toDigitsCore_mem (fun c => c ≠ '&') hP (n + 1) n []
    (fun x hx => absurd hx (List.not_mem_nil x)) c hc

theorem fmtDate_ne_amp (d : PyDate) : '&' ∉ (fmtDate d).data := by
  intro hm
  rw [fmtDate, data_mk] at hm
  have hd : ∀ (n w : Nat), '&' ∈ padZeros w (Nat.toDigits 10 n) → False := by
    intro n w h
    rcases List.mem_append.mp h with h1 | h2
    · exact absurd (List.eq_of_mem_replicate h1) (by decide)
    · exact toDigits_ne_amp n '&' h2 rfl
  rcases List.mem_append.mp hm with h1 | h2
  · rcases List.mem_append.mp h1 with h3 | h4
    · exact hd _ _ h3
    · rcases List.mem_cons.mp h4 with he | h5
      · exact absurd he (by decide)
      · exact hd _ _ h5
  · rcases List.mem_cons.mp h2 with he | h5
    · exact absurd he (by decide)
    · exact hd _ _ h5

theorem paramOf_key_value (key v : List Char) (hkey : '=' ∉ key) :
    paramOf (key ++ '=' :: v) = (String.mk key, String.mk v) := by
  unfold paramOf
  rw [upToFirst_single_append '=' v key hkey, afterFirst_single_append '=' v key hkey]

/-- C3 counterexample: the keyword is interpolated verbatim, not URL-encoded:
for the keyword "a b" the URL carries the parameter `query=a b`, while the
URL-encoded keyword would be `a%20b`, so the claimed parameter list differs
from the one actually sent. -/
theorem C3_counterexample :
    queryParamsOf (base_url "a b" ⟨2024, 1, 2⟩ ⟨2024, 1, 31⟩) ≠
      [("where", "news"), ("query", urlEncode "a b"), ("sort", "1"),
       ("ds", fmtDate ⟨2024, 1, 2⟩), ("de", fmtDate ⟨2024, 1, 31⟩)] ∧
    queryParamsOf (base_url "a b" ⟨2024, 1, 2⟩ ⟨2024, 1, 31⟩) =
      [("where", "news"), ("query", "a b"), ("sort", "1"),
       ("ds", "2024.01.02"), ("de", "2024.01.31")] ∧
    urlEncode "a b" = "a%20b" := by
  exact ⟨by decide, by decide, by decide⟩

/-- C3 (amended): the keyword is embedded verbatim — not URL-encoded — so
for every keyword containing no ampersand (an ampersand would split the
parameter) and all dates, the URL's query parameters are exactly
where=news, query=<the keyword verbatim>, sort=1, ds=<start, YYYY.MM.DD>,
de=<end, YYYY.MM.DD>, and the request carries the fixed non-empty browser
User-Agent "Mozilla/5.0". -/
theorem C3_request_shape (keyword : String) (sd ed : PyDate)
    (hk : '&' ∉ keyword.data) :
    queryParamsOf (base_url keyword sd ed) =
      [("where", "news"), ("query", keyword), ("sort", "1"),
       ("ds", fmtDate sd), ("de", fmtDate ed)] ∧
    headers = [("User-Agent", "Mozilla/5.0")] ∧ ("Mozilla/5.0" : String) ≠ "" := by
  refine ⟨?_, rfl, by decide⟩
  have h1 : ("https://search.naver.com/search.naver?where=news&query=" :
      String).data = "https://search.naver.com/search.naver".data ++
        '?' :: ("where=news".data ++ '&' :: "query=".data) := by decide
  have h2 : ("&sort=1&ds=" : String).data =
      '&' :: ("sort=1".data ++ '&' :: "ds=".data) := by decide
  have h3 : ("&de=" : String).data = '&' :: "de=".data := by decide
  have hurl : (base_url keyword sd ed).data =
      "https://search.naver.com/search.naver".data ++
        '?' :: ("where=news".data ++
          '&' :: (("query=".data ++ keyword.data) ++
            '&' :: ("sort=1".data ++
              '&' :: (("ds=".data ++ (fmtDate sd).data) ++
                '&' :: ("de=".data ++ (fmtDate ed).data))))) := by
    simp only [base_url, String.data_append, h1, h2, h3,
      List.append_assoc, List.cons_append, List.nil_append]
  have hquery : queryStringOf (base_url keyword sd ed) =
      String.mk ("where=news".data ++
        '&' :: (("query=".data ++ keyword.data) ++
          '&' :: ("sort=1".data ++
            '&' :: (("ds=".data ++ (fmtDate sd).data) ++
              '&' :: ("de=".data ++ (fmtDate ed).data))))) := by
    have ha : afterFirst '?' [] ((base_url keyword sd ed).data) =
        some ("where=news".data ++
          '&' :: (("query=".data ++ keyword.data) ++
            '&' :: ("sort=1".data ++
              '&' :: (("ds=".data ++ (fmtDate sd).data) ++
                '&' :: ("de=".data ++ (fmtDate ed).data))))) := by
      rw [hurl]
      exact afterFirst_single_append '?' _ _ (by decide)
    unfold queryStringOf
    rw [ha]
  have hkq : '&' ∉ "query=".data ++ keyword.data := by
    intro h
    rcases List.mem_append.mp h with h | h
    · exact absurd h (by decide)
    · exact hk h
  have hkds : '&' ∉ "ds=".data ++ (fmtDate sd).data := by
    intro h
    rcases List.mem_append.mp h with h | h
    · exact absurd h (by decide)
    · exact fmtDate_ne_amp sd h
  have hkde : '&' ∉ "de=".data ++ (fmtDate ed).data := by
    intro h
    rcases List.mem_append.mp h with h | h
    · exact absurd h (by decide)
    · exact fmtDate_ne_amp ed h
  have hsplit : pySplitL '&' [] (queryStringOf (base_url keyword sd ed)).data =
      ["where=news".data, "query=".data ++ keyword.data, "sort=1".data,
       "ds=".data ++ (fmtDate sd).data, "de=".data ++ (fmtDate ed).data] := by
    rw [hquery]
    show pySplitL '&' [] ("where=news".data ++ '&' :: _) = _
    rw [pySplitL_single_append '&' _ _ (by decide),
      pySplitL_single_append '&' _ _ hkq,
      pySplitL_single_append '&' _ _ (by decide),
      pySplitL_single_append '&' _ _ hkds,
      pySplitL_single_nil '&' _ hkde]
  show (pySplitL '&' [] (queryStringOf (base_url keyword sd ed)).data).map paramOf = _
  rw [hsplit]
  simp only [List.map_cons, List.map_nil]
  rw [show ("query=".data ++ keyword.data : List Char) =
      "query".data ++ '=' :: keyword.data from by
        rw [show ("query=" : String).data = "query".data ++ ['='] from by decide,
          List.append_assoc]; rfl,
    show ("ds=".data ++ (fmtDate sd).data : List Char) =
      "ds".data ++ '=' :: (fmtDate sd).data from by
        rw [show ("ds=" : String).data = "ds".data ++ ['='] from by decide,
          List.append_assoc]; rfl,
    show ("de=".data ++ (fmtDate ed).data : List Char) =
      "de".data ++ '=' :: (fmtDate ed).data from by
        rw [show ("de=" : String).data = "de".data ++ ['='] from by decide,
          List.append_assoc]; rfl]
  rw [paramOf_key_value _ _ (by decide), paramOf_key_value _ _ (by decide),
    paramOf_key_value _ _ (by decide)]
  rfl

/-- C3 witness: the amended parameter shape evaluated for the keyword "CIP"
and a concrete date range. -/
theorem C3_request_shape_witness :
    queryParamsOf (base_url "CIP" ⟨2024, 1, 2⟩ ⟨2024, 1, 31⟩) =
      [("where", "news"), ("query", "CIP"), ("sort", "1"),
       ("ds", "2024.01.02"), ("de", "2024.01.31")] := by
  rw [(C3_request_shape "CIP" ⟨2024, 1, 2⟩ ⟨2024, 1, 31⟩ (by decide)).1]
  decide

/-! ### Claim C2 -/

theorem get_summary_fallback_left (r : String)
    (h : pySplit "Category:" r = [r]) :
    get_summary_and_category (some r) = ("N/A", errSynopsis) := by
  simp only [get_summary_and_category]
  rw [h]

theorem get_summary_fallback_right (r : String)
    (h : pySplit "Synopsis:" r = [r]) :
    get_summary_and_category (some r) = ("N/A", errSynopsis) := by
  simp only [get_summary_and_category]
  rw [h]
  rcases pySplit "Category:" r with _ | ⟨a, _ | ⟨b, t⟩⟩ <;> rfl

/-- C2 counterexample: for the reply
"Category: A\nSynopsis: S Synopsis: T", which contains both markers, the
code returns synopsis "S" (the segment between the first and the second
occurrence of `Synopsis:`), while the claim asserts the text after
`Synopsis:` to the end of the reply, which strips to "S Synopsis: T". -/
theorem C2_counterexample :
    ("Category:".data <:+: ("Category: A\nSynopsis: S Synopsis: T").data) ∧
    ("Synopsis:".data <:+: ("Category: A\nSynopsis: S Synopsis: T").data) ∧
    (get_summary_and_category (some "Category: A\nSynopsis: S Synopsis: T")).2
      = "S" ∧
    textAfterFirstToEnd "Synopsis:" "Category: A\nSynopsis: S Synopsis: T"
      = "S Synopsis: T" ∧
    ("S" : String) ≠ "S Synopsis: T" := by
  exact ⟨by decide, by decide, by decide, by decide, by decide⟩

/-- C2 (amended): a reply missing either literal marker parses to category
"N/A" with the fixed error synopsis and nothing escapes the classifier;
when both markers occur, the category is the text after the first
`Category:`, cut at the next `Category:` occurrence and then at the first
line break, stripped, and the synopsis is the text after the first
`Synopsis:` cut at the next `Synopsis:` occurrence (not extending to the
end of the reply), stripped. -/
theorem C2_reply_parsing (r : String) :
    ((¬ "Category:".data <:+: r.data ∨ ¬ "Synopsis:".data <:+: r.data) →
      get_summary_and_category (some r) = ("N/A", errSynopsis)) ∧
    (∀ tc ts, scanAfter "Category:" r = some tc →
      scanAfter "Synopsis:" r = some ts →
      get_summary_and_category (some r) =
        (pyStrip (firstLine (scanUpTo "Category:" tc)),
         pyStrip (scanUpTo "Synopsis:" ts))) := by
  constructor
  · intro hor
    rcases hor with h | h
    · refine get_summary_fallback_left r ?_
      show (pySplitL 'C' "ategory:".data r.data).map String.mk = [r]
      have h0 : afterFirst 'C' "ategory:".data r.data = none :=
        (afterFirst_none_iff _ _ _).mpr h
      rw [pySplitL_eq, h0]
      rfl
    · refine get_summary_fallback_right r ?_
      show (pySplitL 'S' "ynopsis:".data r.data).map String.mk = [r]
      have h0 : afterFirst 'S' "ynopsis:".data r.data = none :=
        (afterFirst_none_iff _ _ _).mpr h
      rw [pySplitL_eq, h0]
      rfl
  · intro tc ts htc hts
    have h1 : afterFirst 'C' "ategory:".data r.data = some tc.data := by
      rcases ha : afterFirst 'C' "ategory:".data r.data with _ | l
      · exfalso
        have h := htc
        rw [show scanAfter "Category:" r
            = (afterFirst 'C' "ategory:".data r.data).map String.mk from rfl,
          ha] at h
        cases h
      · have h := htc
        rw [show scanAfter "Category:" r
            = (afterFirst 'C' "ategory:".data r.data).map String.mk from rfl,
          ha] at h
        have h2 : String.mk l = tc := Option.some.inj h
        rw [← h2]
    have h3 : afterFirst 'S' "ynopsis:".data r.data = some ts.data := by
      rcases ha : afterFirst 'S' "ynopsis:".data r.data with _ | l
      · exfalso
        have h := hts
        rw [show scanAfter "Synopsis:" r
            = (afterFirst 'S' "ynopsis:".data r.data).map String.mk from rfl,
          ha] at h
        cases h
      · have h := hts
        rw [show scanAfter "Synopsis:" r
            = (afterFirst 'S' "ynopsis:".data r.data).map String.mk from rfl,
          ha] at h
        have h2 : String.mk l = ts := Option.some.inj h
        rw [← h2]
    obtain ⟨t1, ht1⟩ := pySplitL_cons 'C' "ategory:".data tc.data
    obtain ⟨t2, ht2⟩ := pySplitL_cons 'S' "ynopsis:".data ts.data
    have hc : pySplit "Category:" r =
        String.mk (upToFirst 'C' "ategory:".data r.data) ::
          String.mk (upToFirst 'C' "ategory:".data tc.data) ::
            t1.map String.mk := by
      show (pySplitL 'C' "ategory:".data r.data).map String.mk = _
      rw [pySplitL_eq, h1]
      show (upToFirst 'C' "ategory:".data r.data ::
        pySplitL 'C' "ategory:".data tc.data).map String.mk = _
      rw [ht1]
      rfl
    have hs : pySplit "Synopsis:" r =
        String.mk (upToFirst 'S' "ynopsis:".data r.data) ::
          String.mk (upToFirst 'S' "ynopsis:".data ts.data) ::
            t2.map String.mk := by
      show (pySplitL 'S' "ynopsis:".data r.data).map String.mk = _
      rw [pySplitL_eq, h3]
      show (upToFirst 'S' "ynopsis:".data r.data ::
        pySplitL 'S' "ynopsis:".data ts.data).map String.mk = _
      rw [ht2]
      rfl
    simp only [get_summary_and_category]
    rw [hc, hs]
    obtain ⟨t3, ht3⟩ :=
      pySplitL_cons '\n' [] (upToFirst 'C' "ategory:".data tc.data)
    have hnl : pySplit "\n" (String.mk (upToFirst 'C' "ategory:".data tc.data)) =
        String.mk (upToFirst '\n' [] (upToFirst 'C' "ategory:".data tc.data)) ::
          t3.map String.mk := by
      show (pySplitL '\n' [] (upToFirst 'C' "ategory:".data tc.data)).map
        String.mk = _
      rw [ht3]
      rfl
    show (pyStrip ((pySplit "\n"
        (String.mk (upToFirst 'C' "ategory:".data tc.data))).headD ""),
      pyStrip (String.mk (upToFirst 'S' "ynopsis:".data ts.data))) = _
    rw [hnl]
    rfl

/-- C2 witness: the amended theorem evaluated at a marker-free reply and at
a well-formed two-marker reply. -/
theorem C2_reply_parsing_witness :
    get_summary_and_category (some "the model went off script") =
      ("N/A", errSynopsis) ∧
    get_summary_and_category (some "Category: CIP\nSynopsis: Fine.") =
      ("CIP", "Fine.") := by
  constructor
  · exact (C2_reply_parsing "the model went off script").1 (Or.inl (by decide))
  · have h := (C2_reply_parsing "Category: CIP\nSynopsis: Fine.").2
      " CIP\nSynopsis: Fine." " Fine." (by decide) (by decide)
    rw [h]
    decide

/-! ### Claim C9 -/

theorem fails_to_sentinel (reply : Option String)
    (h : classificationFails reply = true) :
    get_summary_and_category reply = ("N/A", errSynopsis) := by
  cases reply with
  | none => rfl
  | some r =>
    simp only [classificationFails] at h
    simp only [get_summary_and_category]
    revert h
    rcases pySplit "Category:" r with _ | ⟨a, _ | ⟨b, t⟩⟩ <;>
      rcases pySplit "Synopsis:" r with _ | ⟨c, _ | ⟨d, u⟩⟩ <;>
      intro h <;>
      first
        | rfl
        | simp at h

/-- C9: every classification failure — transport failure and template
mismatch alike — yields the identical ("N/A", error-synopsis) pair; after
deduplication the table carries at most one row bearing the error synopsis,
hence at most one row arising from failed classifications; and whenever the
first article whose classified synopsis is the placeholder is itself a
failure (so the surviving error row arises from a failure), that row is
exactly the first failed article's media and journalist under category
"N/A". -/
theorem C9_failed_classifications_collapse
    (fetch : String → Option (List Container))
    (model : String → Option String) (keywords : List String) :
    (∀ reply, classificationFails reply = true →
      get_summary_and_category reply = ("N/A", errSynopsis)) ∧
    (runTable fetch model keywords).countP
      (fun r => r.Synopsis == errSynopsis) ≤ 1 ∧
    (∀ a₀, (collectArticles fetch keywords).find?
        (fun a => (get_summary_and_category (model a.title)).2 == errSynopsis)
          = some a₀ →
      (runTable fetch model keywords).filter
          (fun r => r.Synopsis == errSynopsis) = [rowOfArticle model a₀] ∧
      (classificationFails (model a₀.title) = true →
        rowOfArticle model a₀ =
          ⟨"N/A", a₀.media, a₀.journalist, errSynopsis⟩)) := by
  have h1 : (runTable fetch model keywords).filter
      (fun r => r.Synopsis == errSynopsis) =
      ((processArticles model (collectArticles fetch keywords)).filter
        (fun r => r.Synopsis == errSynopsis)).take 1 := by
    show (dropDupGo [] _).filter _ = _
    rw [dropDupGo_filter errSynopsis _ [], if_neg (List.not_mem_nil _)]
  have h2 : (processArticles model (collectArticles fetch keywords)).filter
      (fun r => r.Synopsis == errSynopsis) =
      ((collectArticles fetch keywords).filter
        (fun a => (rowOfArticle model a).Synopsis == errSynopsis)).map
        (rowOfArticle model) :=
    processArticles_filter model _ errSynopsis
  refine ⟨fails_to_sentinel, ?_, ?_⟩
  · rw [List.countP_eq_length_filter, h1]
    have := List.length_take 1 ((processArticles model
      (collectArticles fetch keywords)).filter
        (fun r => r.Synopsis == errSynopsis))
    omega
  · intro a₀ hfind
    have hfind2 : ((collectArticles fetch keywords).filter
        (fun a => (rowOfArticle model a).Synopsis == errSynopsis)).head?
          = some a₀ := by
      rw [← find_eq_head_filter]
      exact hfind
    obtain ⟨tl, htl⟩ := List.head?_eq_some_iff.mp hfind2
    constructor
    · rw [h1, h2, htl]
      rfl
    · intro hfail
      have hs := fails_to_sentinel (model a₀.title) hfail
      show (⟨(get_summary_and_category (model a₀.title)).1, a₀.media,
        a₀.journalist, (get_summary_and_category (model a₀.title)).2⟩ : Row) = _
      rw [hs]

/-- C9 witness: one keyword, two articles; classifying the first raises
(transport failure), the second succeeds — the final table keeps exactly
one error row, carrying the first (failed) article's media and
journalist. -/
theorem C9_failed_classifications_collapse_witness :
    (runTable
      (fun _ => some [⟨some "T1", some "M1", some "J1"⟩,
        ⟨some "T2", some "M2", some "J2"⟩])
      (fun t => if t = "T1" then none
        else some "Category: CIP\nSynopsis: Ok.")
      ["K"]).filter (fun r => r.Synopsis == errSynopsis) =
      [⟨"N/A", "M1", "J1", errSynopsis⟩] := by
  have h := (C9_failed_classifications_collapse
    (fun _ => some [⟨some "T1", some "M1", some "J1"⟩,
      ⟨some "T2", some "M2", some "J2"⟩])
    (fun t => if t = "T1" then none
      else some "Category: CIP\nSynopsis: Ok.")
    ["K"]).2.2 ⟨"T1", "M1", "J1", "K"⟩ (by decide)
  rw [h.1]
  decide

end NewsMonitor
